import Mathlib

/-!
# geni18n: ARB translation files to generated Go source

A shallow embedding of `main.go` (package `main` of doozer-de/geni18n).

Modelling conventions
* A Go `string` is a Lean `String`, that is, valid UTF-8 text.  Comparison is
  byte-wise on the UTF-8 encoding, as in Go (`stringLess`); it is shown to be
  the lexicographic order of `String` (`stringLess_iff`).
* A Go `map[string]string` is an association list with pairwise distinct
  keys; `nil` maps are `none`.  The iteration order of `range` over a map is
  unspecified in Go, so every loop over a map is parameterised by a
  `MapOrder`, an arbitrary rearrangement of the entries.
* Go's `(value, error)` results are pairs whose second component is an
  `Option GoError` (`none` is the `nil` error).
* Library calls (`encoding/json`, `path/filepath`, `strings`, `slices`,
  `cmp`, `os`) are modelled by their documented behaviour; library data that
  cannot be reproduced (the language-tag tables, the Go parser behind
  `build.ImportDir` and `format.Source`, the embedded `code.tmpl`) is taken
  as a parameter of the environment.
-/

namespace Geni18n

/-! ## Errors -/

/-- The error values that can reach a caller of the program's functions. -/
inductive GoError where
  /-- `*json.SyntaxError` or `io.EOF`: the reader holds no well-formed JSON value. -/
  | jsonMalformed
  /-- `*json.UnmarshalTypeError` with its `Value` field (the JSON kind found). -/
  | unmarshalType (value : String)
  /-- `language.ErrSyntax`, returned by `language.Parse` for the empty string. -/
  | langEmpty
  /-- Any other error of `language.Parse` (ill-formed or unknown subtag). -/
  | langInvalid (tag : String)
  /-- `*fs.PathError` of `os.Open`: the file does not exist. -/
  | notExist (name : String)
  /-- An error reported by a library taken as a parameter. -/
  | other (msg : String)
  deriving DecidableEq, Repr

/-! ## `strings` and `path/filepath` -/

/-- `strings.HasPrefix(s, p)`: `s` begins with `p`. -/
def HasPrefix (s p : String) : Bool :=
  p.data.isPrefixOf s.data

/-- `strings.HasSuffix(s, suffix)`. -/
def HasSuffix (s suffix : String) : Bool :=
  suffix.data.isSuffixOf s.data

/-- `strings.TrimSuffix(s, suffix)`: `s` without the trailing `suffix`, or `s`
itself when it does not end in `suffix`. -/
def TrimSuffix (s suffix : String) : String :=
  if HasSuffix s suffix then ⟨s.data.take (s.data.length - suffix.data.length)⟩ else s

/-- `os.IsPathSeparator` on Unix. -/
def IsPathSeparator (c : Char) : Bool :=
  c == '/'

/-- The loop of `filepath.Ext`, walking the path backwards: `rev` is what is
still to be visited (last character first), `acc` the characters already
passed, in path order. -/
def extLoop : List Char → List Char → List Char
  | [], _ => []
  | c :: rev, acc =>
    if IsPathSeparator c then []
    else if c = '.' then c :: acc
    else extLoop rev (c :: acc)

/-- `filepath.Ext(path)`: the suffix beginning at the final dot in the final
element of `path`; empty if there is no dot. -/
def Ext (path : String) : String :=
  ⟨extLoop path.data.reverse []⟩

/-! ## `language.Parse` -/

/-- `language.Parse(s)` reduced to its error result.  The empty string is
rejected up front with `ErrSyntax`; every other decision depends on the
subtag tables of `golang.org/x/text`, which enter as the parameter `tables`
(`none` when the tag is accepted). -/
def languageParse (tables : String → Option GoError) (s : String) : Option GoError :=
  if s = "" then some GoError.langEmpty else tables s

/-- `Lang` extracts the language code from a file name. -/
def Lang (tables : String → Option GoError) (fname : String) : String × Option GoError :=
  let name := TrimSuffix fname (Ext fname)
  match languageParse tables name with
  | some err => ("", some err)
  | none => (name, none)

/-! ## Go maps -/

/-- A `map[string]string` value that is not `nil`: its entries, keys distinct. -/
abbrev GoMap := List (String × String)

/-- `m[k] = v`. -/
def GoMap.set : GoMap → String → String → GoMap
  | [], k, v => [(k, v)]
  | (k0, v0) :: m, k, v => if k0 = k then (k, v) :: m else (k0, v0) :: GoMap.set m k v

/-- `delete(m, k)`. -/
def GoMap.delete (m : GoMap) (k : String) : GoMap :=
  m.filter fun kv => kv.1 ≠ k

/-- One possible iteration order of `range` over maps: any rearrangement of
the entries. -/
structure MapOrder where
  /-- The order in which the entries of a map are visited. -/
  enum : GoMap → GoMap
  /-- Every entry is visited exactly once. -/
  perm : ∀ m, (enum m).Perm m

/-- Iteration in storage order. -/
def MapOrder.stored : MapOrder :=
  ⟨fun m => m, fun m => List.Perm.refl m⟩

/-- Iteration in reverse storage order. -/
def MapOrder.reversed : MapOrder :=
  ⟨fun m => m.reverse, fun m => List.reverse_perm m⟩

/-! ## `encoding/json` decoding into a `map[string]string` -/

/-- A JSON value as delivered by the scanner of `encoding/json`.  Objects keep
their members in document order, duplicate keys included. -/
inductive JSON where
  | null
  | bool (b : Bool)
  | number (literal : String)
  | string (s : String)
  | array (items : List JSON)
  | object (members : List (String × JSON))

/-- The kind of a JSON value as named in `UnmarshalTypeError.Value`. -/
def JSON.kind : JSON → String
  | .null => "null"
  | .bool _ => "bool"
  | .number _ => "number"
  | .string _ => "string"
  | .array _ => "array"
  | .object _ => "object"

/-- Values a `string` map element accepts: a JSON string, or `null` (which
leaves the element at its zero value). -/
def JSON.isStringOrNull : JSON → Bool
  | .null => true
  | .string _ => true
  | _ => false

/-- `d.saveError`: only the first error of a decode is kept. -/
def saveError (saved : Option GoError) (err : GoError) : Option GoError :=
  match saved with
  | some e => some e
  | none => some err

/-- Decoding one JSON value into a fresh `string` map element: the element
afterwards, and the type error to record, if any. -/
def decodeElem : JSON → String × Option GoError
  | .string s => (s, none)
  | .null => ("", none)
  | v => ("", some (GoError.unmarshalType v.kind))

/-- One member of a JSON object decoded into the map: the element is decoded
from its zero value, a type mismatch is saved, and the key is stored. -/
def decodeMember (st : GoMap × Option GoError) (kv : String × JSON) : GoMap × Option GoError :=
  match decodeElem kv.2 with
  | (elem, none) => (GoMap.set st.1 kv.1 elem, st.2)
  | (elem, some err) => (GoMap.set st.1 kv.1 elem, saveError st.2 err)

/-- `json.NewDecoder(r).Decode(&data)` for `data` of type `map[string]string`.
The reader is given by the first JSON value it holds (`none` when there is no
well-formed one).  Returns the map afterwards and the error. -/
def Decode (r : Option JSON) (data : Option GoMap) : Option GoMap × Option GoError :=
  match r with
  | none => (data, some GoError.jsonMalformed)
  | some JSON.null => (none, none)
  | some (JSON.object members) =>
    let st := members.foldl decodeMember (data.getD [], none)
    (some st.1, st.2)
  | some v => (data, some (GoError.unmarshalType v.kind))

/-! ## `ParseARB` -/

/-- The body of the `range` loop of `ParseARB`: metadata keys are deleted. -/
def dropMeta (data : GoMap) (kv : String × String) : GoMap :=
  if HasPrefix kv.1 "@" then GoMap.delete data kv.1 else data

/-- `ParseARB` parses an ARB file. -/
def ParseARB (o : MapOrder) (r : Option JSON) : Option GoMap × Option GoError :=
  match Decode r (some []) with
  | (_, some err) => (none, some err)
  | (none, none) => (none, none)
  | (some data, none) => (some ((o.enum data).foldl dropMeta data), none)

/-! ## The translation model -/

/-- A `Pair` of key and value of one translation. -/
structure Pair where
  Key : String
  Value : String
  deriving DecidableEq, Repr

/-- `Translation` holds the data for a generated file. -/
structure Translation where
  Package : String
  Lang : String
  Pairs : List Pair
  deriving DecidableEq, Repr

/-- The UTF-8 encoding of one character (RFC 3629), each byte as a number. -/
def utf8Encode (c : Char) : List Nat :=
  if c.toNat < 0x80 then [c.toNat]
  else if c.toNat < 0x800 then [0xC0 + c.toNat / 0x40, 0x80 + c.toNat % 0x40]
  else if c.toNat < 0x10000 then
    [0xE0 + c.toNat / 0x1000, 0x80 + c.toNat / 0x40 % 0x40, 0x80 + c.toNat % 0x40]
  else
    [0xF0 + c.toNat / 0x40000, 0x80 + c.toNat / 0x1000 % 0x40, 0x80 + c.toNat / 0x40 % 0x40,
      0x80 + c.toNat % 0x40]

/-- The bytes a Go string consists of. -/
def utf8 : List Char → List Nat
  | [] => []
  | c :: cs => utf8Encode c ++ utf8 cs

/-- The loop behind `x < y` on strings: byte-wise lexicographic comparison. -/
def lessLoop : List Nat → List Nat → Bool
  | _, [] => false
  | [], _ :: _ => true
  | a :: x, b :: y =>
    if a < b then true
    else if b < a then false
    else lessLoop x y

/-- The Go expression `x < y` on strings. -/
def stringLess (x y : String) : Bool :=
  lessLoop (utf8 x.data) (utf8 y.data)

/-- `cmp.Compare` on strings. -/
def cmpCompare (x y : String) : Int :=
  if stringLess x y then -1 else if stringLess y x then 1 else 0

/-- The comparison passed to `slices.SortFunc` in `Generate`. -/
def cmpPairs (a b : Pair) : Int :=
  cmpCompare a.Key b.Key

/-- `slices.SortFunc(x, cmp)`: `x` in ascending order as determined by `cmp`.
The library does not promise stability; on the pairwise distinct keys of a map
every correct sort returns the same sequence (`sorted_perm_unique`). -/
def SortFunc (cmp : Pair → Pair → Int) (x : List Pair) : List Pair :=
  x.insertionSort fun a b => cmp a b ≤ 0

/-- The `range` loop of `Generate` appending one `Pair` per map entry (no
iteration over a `nil` map). -/
def collectPairs (o : MapOrder) (tr : Option GoMap) : List Pair :=
  match tr with
  | none => []
  | some m => (o.enum m).foldl (fun pairs kv => pairs ++ [Pair.mk kv.1 kv.2]) []

/-- Lines 94 to 100 of `Generate`: the model handed to the template. -/
def buildTranslation (o : MapOrder) (pkg lang : String) (tr : Option GoMap) : Translation :=
  { Package := pkg, Lang := lang, Pairs := SortFunc cmpPairs (collectPairs o tr) }

/-! ## The file system and the environment -/

/-- The files of the working directory: name and content. -/
abbrev FS := List (String × String)

/-- The content of a file, if it exists. -/
def FS.read (fs : FS) (name : String) : Option String :=
  (fs.find? fun f => f.1 = name).map Prod.snd

/-- The file system with `name` holding `data` (created or overwritten). -/
def FS.put (fs : FS) (name data : String) : FS :=
  (name, data) :: fs.filter fun f => f.1 ≠ name

/-- How a call of `os.WriteFile` can end.  Its documentation: "Since WriteFile
requires multiple system calls to complete, a failure mid-operation can leave
the file in a partially written state."  So a failure either comes before
anything changed, or leaves the file created or truncated with part of the
data. -/
inductive WriteOutcome where
  /-- All bytes were written. -/
  | written
  /-- The file could not be opened; nothing changed. -/
  | refused (err : GoError)
  /-- The file was created or truncated and holds `partialData`. -/
  | interrupted (partialData : String) (err : GoError)

/-- Everything outside `main.go` that a run depends on. -/
structure Env where
  /-- Iteration order of the `range` loop of `ParseARB`. -/
  rangeParse : MapOrder
  /-- Iteration order of the `range` loop of `Generate`. -/
  rangeGenerate : MapOrder
  /-- `build.ImportDir(dir, build.IgnoreVendor)`: the package name. -/
  importDir : FS → String → Except GoError String
  /-- The subtag tables behind `language.Parse`. -/
  tables : String → Option GoError
  /-- The scanner of `encoding/json`: the first JSON value of a text. -/
  scan : String → Option JSON
  /-- The embedded `code.tmpl` once parsed, as the function `Execute`
  computes; `none` when the template text does not parse. -/
  codeTmpl : Option (Translation → Except GoError String)
  /-- `format.Source`. -/
  formatSource : String → Except GoError String
  /-- The fate of `os.WriteFile(name, data, 0644)`. -/
  writeOutcome : FS → String → String → WriteOutcome
  /-- `filepath.Glob`. -/
  glob : FS → String → Except GoError (List String)

/-- `os.WriteFile(name, data, 0644)`: the file system afterwards and the error. -/
def WriteFile (env : Env) (fs : FS) (name data : String) : FS × Option GoError :=
  match env.writeOutcome fs name data with
  | .written => (fs.put name data, none)
  | .refused err => (fs, some err)
  | .interrupted partialData err => (fs.put name partialData, some err)

/-- `os.Open(fname)` followed by reading: the content of the file. -/
def Open (fs : FS) (fname : String) : Except GoError String :=
  match fs.read fname with
  | some content => .ok content
  | none => .error (GoError.notExist fname)

/-- How a call of a Go function ends. -/
inductive Result where
  /-- Returned the `nil` error. -/
  | ok
  /-- Returned an error. -/
  | error (err : GoError)
  /-- Did not return: a run-time panic (`template.Must`). -/
  | panicked
  deriving DecidableEq, Repr

/-! ## `Pkg`, `Generate`, `main` -/

/-- `Pkg` returns the Go package name of a directory. -/
def Pkg (env : Env) (fs : FS) (dir : String) : String × Option GoError :=
  match env.importDir fs dir with
  | .error err => ("", some err)
  | .ok name => (name, none)

/-- `Generate` writes the translation file for `fname`: the file system
afterwards and the way the call ended. -/
def Generate (env : Env) (fs : FS) (fname : String) : FS × Result :=
  match Pkg env fs "." with
  | (_, some err) => (fs, .error err)
  | (pkg, none) =>
  match Lang env.tables fname with
  | (_, some err) => (fs, .error err)
  | (lang, none) =>
  match Open fs fname with
  | .error err => (fs, .error err)
  | .ok fd =>
  match ParseARB env.rangeParse (env.scan fd) with
  | (_, some err) => (fs, .error err)
  | (tr, none) =>
  let t := buildTranslation env.rangeGenerate pkg lang tr
  match env.codeTmpl with
  | none => (fs, .panicked)
  | some execute =>
  match execute t with
  | .error err => (fs, .error err)
  | .ok buf =>
  match env.formatSource buf with
  | .error err => (fs, .error err)
  | .ok f =>
  match WriteFile env fs (lang ++ "_i18n.go") f with
  | (fs1, some err) => (fs1, .error err)
  | (fs1, none) => (fs1, .ok)

/-- The loop of `main` over the matched files; `log.Fatal` ends the process
with status 1, a panic with status 2.  Returns the file system at exit and
the exit status. -/
def generateAll (env : Env) : FS → List String → FS × Nat
  | fs, [] => (fs, 0)
  | fs, f :: files =>
    match Generate env fs f with
    | (fs1, .ok) => generateAll env fs1 files
    | (fs1, .error _) => (fs1, 1)
    | (fs1, .panicked) => (fs1, 2)

/-- The program: `file` is the value of the `-file` flag (default `*.arb`). -/
def main (env : Env) (fs : FS) (file : String) : FS × Nat :=
  match env.glob fs file with
  | .error _ => (fs, 1)
  | .ok files => generateAll env fs files

/-! ## Definitions used to state the properties -/

/-- The map a JSON object decodes to. -/
def decoded (kvs : List (String × JSON)) : GoMap :=
  (kvs.foldl decodeMember ([], none)).1

/-- The JSON document of a resource mapping whose values are all strings. -/
def serialize (M : GoMap) : JSON :=
  JSON.object (M.map fun kv => (kv.1, JSON.string kv.2))

/-- The resource file of the scenario: a greeting, its description under
"@hello", and a farewell. -/
def scenarioMembers : List (String × JSON) :=
  [("hello", JSON.string "Bonjour"),
   ("@hello", JSON.object [("description", JSON.string "greeting")]),
   ("bye", JSON.string "Au revoir")]

/-- The files of a list generated one after the other, each call of
`Generate` succeeding: the file system afterwards, `none` if one fails. -/
def generatedAll (env : Env) : FS → List String → Option FS
  | fs, [] => some fs
  | fs, f :: files =>
    match Generate env fs f with
    | (fs1, .ok) => generatedAll env fs1 files
    | _ => none

/-! ## A sample environment -/

/-- A table accepting the tags `fr` and `en` only. -/
def sampleTables (s : String) : Option GoError :=
  if s = "fr" ∨ s = "en" then none else some (GoError.langInvalid s)

/-- The text of a resource file with two translations. -/
def sampleText : String :=
  "\x7b\"hello\": \"Bonjour\", \"bye\": \"Au revoir\"\x7d"

/-- The scanner on the texts used below: `sampleText` is well formed, every
other text is taken as malformed. -/
def sampleScan (s : String) : Option JSON :=
  if s = sampleText then
    some (JSON.object [("hello", JSON.string "Bonjour"), ("bye", JSON.string "Au revoir")])
  else none

/-- A template printing package, language and the pairs in order. -/
def sampleTmpl (t : Translation) : Except GoError String :=
  .ok (t.Package ++ ":" ++ t.Lang ++ ":" ++
    String.join (t.Pairs.map fun p => p.Key ++ "=" ++ p.Value ++ ";"))

/-- An environment in package `app` whose writes end as `w` says. -/
def sampleEnv (w : FS → String → String → WriteOutcome) : Env where
  rangeParse := MapOrder.stored
  rangeGenerate := MapOrder.reversed
  importDir := fun _ _ => .ok "app"
  tables := sampleTables
  scan := sampleScan
  codeTmpl := some sampleTmpl
  formatSource := fun s => .ok s
  writeOutcome := w
  glob := fun fs _ => .ok ((fs.map Prod.fst).filter fun name => HasSuffix name ".arb")

/-- Every write succeeds. -/
def writeAll : FS → String → String → WriteOutcome :=
  fun _ _ _ => WriteOutcome.written

/-- Every write is interrupted after the file was truncated. -/
def writeInterrupted : FS → String → String → WriteOutcome :=
  fun _ _ _ => WriteOutcome.interrupted "" (GoError.other "no space left on device")

/-! # Lemmas -/

/-! ## String order -/

theorem lessLoop_append_left (p s t : List Nat) : lessLoop (p ++ s) (p ++ t) = lessLoop s t := by
  induction p with
  | nil => rfl
  | cons a p ih => simp [lessLoop, ih]

theorem lessLoop_cons (a b : Nat) (x y : List Nat) :
    lessLoop (a :: x) (b :: y) = if a < b then true else if b < a then false else lessLoop x y :=
  rfl

theorem lessLoop_cons_lt (a b : Nat) (x y : List Nat) (h : a < b) :
    lessLoop (a :: x) (b :: y) = true ∧ lessLoop (b :: y) (a :: x) = false := by
  have h2 : ¬ b < a := by omega
  simp [lessLoop_cons, h, h2]

theorem lessLoop_cons_same (a : Nat) (x y : List Nat)
    (h : lessLoop x y = true ∧ lessLoop y x = false) :
    lessLoop (a :: x) (a :: y) = true ∧ lessLoop (a :: y) (a :: x) = false := by
  simpa [lessLoop_cons] using h

/-- The UTF-8 encoding preserves the order of code points, whatever follows
the two encodings. -/
theorem utf8Encode_lt (a b : Char) (h : a.toNat < b.toNat) (s t : List Nat) :
    lessLoop (utf8Encode a ++ s) (utf8Encode b ++ t) = true ∧
    lessLoop (utf8Encode b ++ t) (utf8Encode a ++ s) = false := by
  unfold utf8Encode
  generalize a.toNat = m at h ⊢
  generalize b.toNat = n at h ⊢
  by_cases hm1 : m < 0x80
  · rw [if_pos hm1]
    split_ifs <;> exact lessLoop_cons_lt _ _ _ _ (by omega)
  rw [if_neg hm1]
  have hn1 : ¬ n < 0x80 := by omega
  rw [if_neg hn1]
  by_cases hm2 : m < 0x800
  · rw [if_pos hm2]
    by_cases hn2 : n < 0x800
    · rw [if_pos hn2]
      rcases Nat.lt_or_ge (m / 0x40) (n / 0x40) with h1 | h1
      · exact lessLoop_cons_lt _ _ _ _ (by omega)
      · have e1 : m / 0x40 = n / 0x40 := by omega
        rw [e1]
        exact lessLoop_cons_same _ _ _ (lessLoop_cons_lt _ _ _ _ (by omega))
    · rw [if_neg hn2]
      split_ifs <;> exact lessLoop_cons_lt _ _ _ _ (by omega)
  rw [if_neg hm2]
  have hn2 : ¬ n < 0x800 := by omega
  rw [if_neg hn2]
  by_cases hm3 : m < 0x10000
  · rw [if_pos hm3]
    by_cases hn3 : n < 0x10000
    · rw [if_pos hn3]
      rcases Nat.lt_or_ge (m / 0x1000) (n / 0x1000) with h1 | h1
      · exact lessLoop_cons_lt _ _ _ _ (by omega)
      · have e1 : m / 0x1000 = n / 0x1000 := by omega
        rw [e1]
        apply lessLoop_cons_same
        rcases Nat.lt_or_ge (m / 0x40 % 0x40) (n / 0x40 % 0x40) with h2 | h2
        · exact lessLoop_cons_lt _ _ _ _ (by omega)
        · have e2 : m / 0x40 % 0x40 = n / 0x40 % 0x40 := by omega
          rw [e2]
          exact lessLoop_cons_same _ _ _ (lessLoop_cons_lt _ _ _ _ (by omega))
    · rw [if_neg hn3]
      exact lessLoop_cons_lt _ _ _ _ (by omega)
  rw [if_neg hm3]
  have hn3 : ¬ n < 0x10000 := by omega
  rw [if_neg hn3]
  rcases Nat.lt_or_ge (m / 0x40000) (n / 0x40000) with h1 | h1
  · exact lessLoop_cons_lt _ _ _ _ (by omega)
  · have e1 : m / 0x40000 = n / 0x40000 := by omega
    rw [e1]
    apply lessLoop_cons_same
    rcases Nat.lt_or_ge (m / 0x1000 % 0x40) (n / 0x1000 % 0x40) with h2 | h2
    · exact lessLoop_cons_lt _ _ _ _ (by omega)
    · have e2 : m / 0x1000 % 0x40 = n / 0x1000 % 0x40 := by omega
      rw [e2]
      apply lessLoop_cons_same
      rcases Nat.lt_or_ge (m / 0x40 % 0x40) (n / 0x40 % 0x40) with h3 | h3
      · exact lessLoop_cons_lt _ _ _ _ (by omega)
      · have e3 : m / 0x40 % 0x40 = n / 0x40 % 0x40 := by omega
        rw [e3]
        exact lessLoop_cons_same _ _ _ (lessLoop_cons_lt _ _ _ _ (by omega))

theorem utf8Encode_ne_nil (c : Char) : ∃ b bs, utf8Encode c = b :: bs := by
  unfold utf8Encode
  split_ifs <;> exact ⟨_, _, rfl⟩

theorem lessLoop_utf8_iff_lex (x y : List Char) :
    lessLoop (utf8 x) (utf8 y) = true ↔ List.Lex (· < ·) x y := by
  induction x generalizing y with
  | nil =>
    cases y with
    | nil => simp [utf8, lessLoop]
    | cons b y =>
      obtain ⟨b0, bs, hb⟩ := utf8Encode_ne_nil b
      simp [utf8, hb, lessLoop, List.Lex.nil]
  | cons a x ih =>
    cases y with
    | nil =>
      obtain ⟨a0, as, ha⟩ := utf8Encode_ne_nil a
      simp [utf8, ha, lessLoop]
    | cons b y =>
      have hab : a.toNat < b.toNat ↔ a < b := Iff.rfl
      have hba : b.toNat < a.toNat ↔ b < a := Iff.rfl
      simp only [utf8]
      rcases lt_trichotomy a b with h | h | h
      · simp [(utf8Encode_lt a b (hab.2 h) _ _).1, List.Lex.rel h]
      · subst h
        rw [lessLoop_append_left, ih]
        simp [List.Lex.cons_iff]
      · have h2 : ¬ a < b := not_lt_of_lt h
        have h3 : a ≠ b := ne_of_gt h
        rw [(utf8Encode_lt b a (hba.2 h) _ _).2]
        simp only [Bool.false_eq_true, false_iff]
        intro hl
        cases hl with
        | cons hh => exact h3 rfl
        | rel hh => exact h2 hh

theorem stringLess_iff (x y : String) : stringLess x y = true ↔ x < y := by
  rw [String.lt_iff_toList_lt]
  exact lessLoop_utf8_iff_lex x.data y.data

theorem cmpCompare_nonpos_iff (x y : String) : cmpCompare x y ≤ 0 ↔ x ≤ y := by
  unfold cmpCompare
  by_cases h1 : x < y
  · simp [(stringLess_iff x y).2 h1, le_of_lt h1]
  · have h1b : ¬ stringLess x y = true := fun h => h1 ((stringLess_iff x y).1 h)
    by_cases h2 : y < x
    · rw [if_neg h1b, if_pos ((stringLess_iff y x).2 h2)]
      exact ⟨fun h => absurd h (by decide), fun h => absurd h (not_le.2 h2)⟩
    · have h2b : ¬ stringLess y x = true := fun h => h2 ((stringLess_iff y x).1 h)
      simp [h1b, h2b, not_lt.1 h2]

/-! ## Sorting -/

theorem cmpPairs_nonpos_iff (a b : Pair) : cmpPairs a b ≤ 0 ↔ a.Key ≤ b.Key :=
  cmpCompare_nonpos_iff a.Key b.Key

instance cmpPairs_total : IsTotal Pair (fun a b => cmpPairs a b ≤ 0) :=
  ⟨fun a b => by
    simp only [cmpPairs_nonpos_iff]
    exact le_total a.Key b.Key⟩

instance cmpPairs_trans : IsTrans Pair (fun a b => cmpPairs a b ≤ 0) :=
  ⟨fun a b c => by
    simp only [cmpPairs_nonpos_iff]
    exact le_trans⟩

theorem SortFunc_perm (x : List Pair) : (SortFunc cmpPairs x).Perm x :=
  List.perm_insertionSort _ x

theorem SortFunc_sorted (x : List Pair) :
    (SortFunc cmpPairs x).Pairwise (fun a b => a.Key ≤ b.Key) := by
  have h := List.sorted_insertionSort (fun a b : Pair => cmpPairs a b ≤ 0) x
  exact List.Pairwise.imp (fun {a b} hab => (cmpPairs_nonpos_iff a b).1 hab) h

/-- A key-sorted list with pairwise distinct keys is strictly sorted. -/
theorem strict_of_sorted_nodup (x : List Pair)
    (hs : x.Pairwise (fun a b => a.Key ≤ b.Key)) (hn : (x.map Pair.Key).Nodup) :
    x.Pairwise (fun a b => a.Key < b.Key) := by
  have hne : x.Pairwise (fun a b => a.Key ≠ b.Key) := by
    simpa [List.Nodup, List.pairwise_map] using hn
  exact (hs.and hne).imp (fun {a b} h => lt_of_le_of_ne h.1 h.2)

/-- Two strictly key-sorted lists with the same elements are equal: the
result of sorting does not depend on the sorting algorithm. -/
theorem sorted_perm_unique (x y : List Pair) (hp : x.Perm y)
    (hx : x.Pairwise (fun a b => a.Key < b.Key))
    (hy : y.Pairwise (fun a b => a.Key < b.Key)) : x = y := by
  haveI : IsAntisymm Pair (fun a b => a.Key < b.Key) :=
    ⟨fun a b h1 h2 => absurd h2 (not_lt_of_lt h1)⟩
  exact List.eq_of_perm_of_sorted hp hx hy

theorem SortFunc_strict (x : List Pair) (hn : (x.map Pair.Key).Nodup) :
    (SortFunc cmpPairs x).Pairwise (fun a b => a.Key < b.Key) := by
  apply strict_of_sorted_nodup _ (SortFunc_sorted x)
  exact (((SortFunc_perm x).map Pair.Key).nodup_iff).2 hn

theorem SortFunc_perm_invariant (x y : List Pair) (hp : x.Perm y)
    (hn : (x.map Pair.Key).Nodup) : SortFunc cmpPairs x = SortFunc cmpPairs y := by
  apply sorted_perm_unique
  · exact (SortFunc_perm x).trans (hp.trans (SortFunc_perm y).symm)
  · exact SortFunc_strict x hn
  · exact SortFunc_strict y (((hp.map Pair.Key).nodup_iff).1 hn)

/-! ## Maps -/

theorem foldl_append_singleton {α β : Type} (f : α → β) (l : List α) (init : List β) :
    l.foldl (fun acc a => acc ++ [f a]) init = init ++ l.map f := by
  induction l generalizing init with
  | nil => simp
  | cons a l ih => simp [ih]

theorem collectPairs_some (o : MapOrder) (m : GoMap) :
    collectPairs o (some m) = (o.enum m).map fun kv => Pair.mk kv.1 kv.2 := by
  simp [collectPairs, foldl_append_singleton (fun kv : String × String => Pair.mk kv.1 kv.2)]

theorem collectPairs_keys (o : MapOrder) (m : GoMap) :
    ((collectPairs o (some m)).map Pair.Key).Perm (m.map Prod.fst) := by
  rw [collectPairs_some, List.map_map]
  exact (o.perm m).map _

theorem set_keys (m : GoMap) (k v : String) :
    (GoMap.set m k v).map Prod.fst =
      if k ∈ m.map Prod.fst then m.map Prod.fst else m.map Prod.fst ++ [k] := by
  induction m with
  | nil => simp [GoMap.set]
  | cons kv m ih =>
    obtain ⟨k0, v0⟩ := kv
    by_cases h : k0 = k
    · simp [GoMap.set, h]
    · have h2 : ¬ k = k0 := fun e => h e.symm
      by_cases hm : k ∈ m.map Prod.fst
      · simp only [GoMap.set, if_neg h, List.map_cons, ih, if_pos hm, List.mem_cons, h2, false_or]
      · simp only [GoMap.set, if_neg h, List.map_cons, ih, if_neg hm, List.mem_cons, h2, false_or,
          List.cons_append]

theorem set_nodup (m : GoMap) (k v : String) (h : (m.map Prod.fst).Nodup) :
    ((GoMap.set m k v).map Prod.fst).Nodup := by
  rw [set_keys]
  split
  · exact h
  · rename_i hk
    exact List.Nodup.append h (List.nodup_singleton k) (by simpa using hk)

theorem set_fresh (m : GoMap) (k v : String) (h : k ∉ m.map Prod.fst) :
    GoMap.set m k v = m ++ [(k, v)] := by
  induction m with
  | nil => simp [GoMap.set]
  | cons kv m ih =>
    obtain ⟨k0, v0⟩ := kv
    simp only [List.map_cons, List.mem_cons, not_or] at h
    have h0 : ¬ k0 = k := fun e => h.1 e.symm
    simp [GoMap.set, h0, ih h.2]

/-- The loop of `ParseARB` removes exactly the metadata entries, whatever the
order of iteration. -/
theorem foldl_dropMeta (l data : GoMap) :
    l.foldl dropMeta data =
      data.filter fun kv => !(HasPrefix kv.1 "@" && decide (kv.1 ∈ l.map Prod.fst)) := by
  induction l generalizing data with
  | nil => simp
  | cons x l ih =>
    rw [List.foldl_cons, ih]
    by_cases hx : HasPrefix x.1 "@" = true
    · simp only [dropMeta, hx, if_true, GoMap.delete, List.filter_filter]
      apply List.filter_congr
      intro kv _
      by_cases hk : kv.1 = x.1
      · simp [hk, hx]
      · have hb : (kv.1 == x.1) = false := by simpa using hk
        simp [hk, hb]
    · simp only [dropMeta, hx, if_false]
      apply List.filter_congr
      intro kv _
      by_cases hk : kv.1 = x.1
      · simp [hk, hx]
      · have hb : (kv.1 == x.1) = false := by simpa using hk
        simp [hk, hb]

theorem foldl_dropMeta_enum (o : MapOrder) (data : GoMap) :
    (o.enum data).foldl dropMeta data = data.filter fun kv => !HasPrefix kv.1 "@" := by
  rw [foldl_dropMeta]
  apply List.filter_congr
  intro kv hkv
  have hmem : kv.1 ∈ (o.enum data).map Prod.fst :=
    List.mem_map_of_mem Prod.fst ((o.perm data).mem_iff.2 hkv)
  simp [hmem]

/-! ## Decoding -/

theorem decodeElem_snd (v : JSON) : (decodeElem v).2 = none ↔ v.isStringOrNull = true := by
  cases v <;> simp [decodeElem, JSON.isStringOrNull]

theorem decodeElem_string (s : String) : decodeElem (JSON.string s) = (s, none) := rfl

theorem decodeMember_fst (st : GoMap × Option GoError) (kv : String × JSON) :
    (decodeMember st kv).1 = GoMap.set st.1 kv.1 (decodeElem kv.2).1 := by
  unfold decodeMember
  split <;> rename_i h <;> simp [h]

theorem decodeMember_snd (st : GoMap × Option GoError) (kv : String × JSON) :
    (decodeMember st kv).2 = none ↔ st.2 = none ∧ kv.2.isStringOrNull = true := by
  rw [← decodeElem_snd]
  unfold decodeMember
  split <;> rename_i h
  · simp [h]
  · rename_i err
    cases hs : st.2 <;> simp [h, saveError]

/-- A decode reports no error exactly when it started without one and every
member value is a string or `null`. -/
theorem foldl_decodeMember_snd (kvs : List (String × JSON)) (st : GoMap × Option GoError) :
    (kvs.foldl decodeMember st).2 = none ↔
      st.2 = none ∧ ∀ kv ∈ kvs, kv.2.isStringOrNull = true := by
  induction kvs generalizing st with
  | nil => simp
  | cons kv kvs ih =>
    rw [List.foldl_cons, ih, decodeMember_snd]
    simp only [List.mem_cons, forall_eq_or_imp]
    tauto

theorem foldl_decodeMember_nodup (kvs : List (String × JSON)) (st : GoMap × Option GoError)
    (h : (st.1.map Prod.fst).Nodup) : ((kvs.foldl decodeMember st).1.map Prod.fst).Nodup := by
  induction kvs generalizing st with
  | nil => simpa using h
  | cons kv kvs ih =>
    rw [List.foldl_cons]
    apply ih
    rw [decodeMember_fst]
    exact set_nodup _ _ _ h

theorem foldl_decodeMember_keys (kvs : List (String × JSON)) (st : GoMap × Option GoError)
    (k : String) :
    k ∈ (kvs.foldl decodeMember st).1.map Prod.fst ↔
      k ∈ st.1.map Prod.fst ∨ k ∈ kvs.map Prod.fst := by
  induction kvs generalizing st with
  | nil => simp
  | cons kv kvs ih =>
    rw [List.foldl_cons, ih, decodeMember_fst, set_keys]
    by_cases hk : kv.1 ∈ st.1.map Prod.fst
    · rw [if_pos hk]
      simp only [List.map_cons, List.mem_cons]
      constructor
      · rintro (h | h)
        · exact Or.inl h
        · exact Or.inr (Or.inr h)
      · rintro (h | h | h)
        · exact Or.inl h
        · exact Or.inl (h ▸ hk)
        · exact Or.inr h
    · rw [if_neg hk]
      simp only [List.map_cons, List.mem_cons, List.mem_append, List.mem_singleton]
      tauto

/-- With pairwise distinct keys the decoded map lists the members in document
order. -/
theorem foldl_decodeMember_fresh (kvs : List (String × JSON)) (st : GoMap × Option GoError)
    (h : (st.1.map Prod.fst ++ kvs.map Prod.fst).Nodup) :
    (kvs.foldl decodeMember st).1 =
      st.1 ++ kvs.map fun kv => (kv.1, (decodeElem kv.2).1) := by
  induction kvs generalizing st with
  | nil => simp
  | cons kv kvs ih =>
    have hfresh : kv.1 ∉ st.1.map Prod.fst := by
      intro hmem
      have := (List.nodup_append.1 h).2.2
      exact this hmem (by simp)
    have hstep : (decodeMember st kv).1 = st.1 ++ [(kv.1, (decodeElem kv.2).1)] := by
      rw [decodeMember_fst, set_fresh _ _ _ hfresh]
    rw [List.foldl_cons, ih, hstep]
    · simp
    · rw [hstep]
      simpa using h

theorem ParseARB_object_ok (o : MapOrder) (kvs : List (String × JSON))
    (h : ∀ kv ∈ kvs, kv.2.isStringOrNull = true) :
    ParseARB o (some (JSON.object kvs)) =
      (some ((decoded kvs).filter fun kv => !HasPrefix kv.1 "@"), none) := by
  have herr : (kvs.foldl decodeMember ([], none)).2 = none :=
    (foldl_decodeMember_snd kvs ([], none)).2 ⟨rfl, h⟩
  simp only [ParseARB, Decode, Option.getD_some, herr, foldl_dropMeta_enum, decoded]

theorem ParseARB_object_error (o : MapOrder) (kvs : List (String × JSON))
    (h : ¬ ∀ kv ∈ kvs, kv.2.isStringOrNull = true) :
    ∃ err, ParseARB o (some (JSON.object kvs)) = (none, some err) := by
  have herr : (kvs.foldl decodeMember ([], none)).2 ≠ none := fun hn =>
    h ((foldl_decodeMember_snd kvs ([], none)).1 hn).2
  obtain ⟨err, he⟩ := Option.ne_none_iff_exists'.1 herr
  exact ⟨err, by simp only [ParseARB, Decode, Option.getD_some, he]⟩

/-- On failure `ParseARB` returns the `nil` map. -/
theorem ParseARB_error_nil (o : MapOrder) (r : Option JSON)
    (h : (ParseARB o r).2 ≠ none) : (ParseARB o r).1 = none := by
  unfold ParseARB at h ⊢
  split <;> simp_all

/-- Inversion: `ParseARB` returns a map only for a JSON object all of whose
member values are strings or `null`. -/
theorem ParseARB_some (o : MapOrder) (r : Option JSON) (m : GoMap)
    (h : (ParseARB o r).1 = some m) :
    ∃ kvs, r = some (JSON.object kvs) ∧ (∀ kv ∈ kvs, kv.2.isStringOrNull = true) ∧
      m = (decoded kvs).filter fun kv => !HasPrefix kv.1 "@" := by
  cases r with
  | none => simp [ParseARB, Decode] at h
  | some v =>
    cases v with
    | object kvs =>
      by_cases hall : ∀ kv ∈ kvs, kv.2.isStringOrNull = true
      · rw [ParseARB_object_ok o kvs hall] at h
        exact ⟨kvs, rfl, hall, (Option.some.inj h).symm⟩
      · obtain ⟨err, he⟩ := ParseARB_object_error o kvs hall
        rw [he] at h
        exact absurd h (by simp)
    | null => simp [ParseARB, Decode] at h
    | bool b => simp [ParseARB, Decode] at h
    | number n => simp [ParseARB, Decode] at h
    | string s => simp [ParseARB, Decode] at h
    | array xs => simp [ParseARB, Decode] at h

theorem decoded_nodup (kvs : List (String × JSON)) : ((decoded kvs).map Prod.fst).Nodup :=
  foldl_decodeMember_nodup kvs ([], none) (by simp)

theorem filter_keys_nodup (m : GoMap) (p : String × String → Bool)
    (h : (m.map Prod.fst).Nodup) : ((m.filter p).map Prod.fst).Nodup :=
  List.Nodup.sublist (List.Sublist.map Prod.fst (List.filter_sublist m)) h

/-- A map returned by `ParseARB` has pairwise distinct keys, none of them
beginning with the metadata marker. -/
theorem ParseARB_keys (o : MapOrder) (r : Option JSON) (m : GoMap)
    (h : (ParseARB o r).1 = some m) :
    (m.map Prod.fst).Nodup ∧ ∀ kv ∈ m, HasPrefix kv.1 "@" = false := by
  obtain ⟨kvs, _, _, hm⟩ := ParseARB_some o r m h
  subst hm
  refine ⟨filter_keys_nodup _ _ (decoded_nodup kvs), ?_⟩
  intro kv hkv
  simpa using (List.mem_filter.1 hkv).2

theorem decoded_serialize (M : GoMap) (h : (M.map Prod.fst).Nodup) :
    decoded (M.map fun kv => (kv.1, JSON.string kv.2)) = M := by
  unfold decoded
  rw [foldl_decodeMember_fresh]
  · simp [List.map_map, Function.comp_def, decodeElem_string]
  · simpa [List.map_map, Function.comp_def] using h

theorem collectPairs_keys_nodup (o : MapOrder) (tr : Option GoMap)
    (h : ∀ m, tr = some m → (m.map Prod.fst).Nodup) :
    ((collectPairs o tr).map Pair.Key).Nodup := by
  cases tr with
  | none => simp [collectPairs]
  | some m => exact ((collectPairs_keys o m).nodup_iff).2 (h m rfl)

theorem sort_collect_perm (a b : GoMap) (hab : a.Perm b) (ha : (a.map Prod.fst).Nodup) :
    SortFunc cmpPairs (a.map fun kv => Pair.mk kv.1 kv.2) =
      SortFunc cmpPairs (b.map fun kv => Pair.mk kv.1 kv.2) := by
  apply SortFunc_perm_invariant _ _ (hab.map _)
  simpa [List.map_map, Function.comp_def] using ha

theorem buildTranslation_perm (l1 l2 : GoMap) (hp : l1.Perm l2)
    (hn : (l1.map Prod.fst).Nodup) (o1 o2 : MapOrder) (pkg lang : String) :
    buildTranslation o1 pkg lang (some l1) = buildTranslation o2 pkg lang (some l2) := by
  unfold buildTranslation
  rw [collectPairs_some, collectPairs_some]
  have h12 : (o1.enum l1).Perm (o2.enum l2) :=
    (o1.perm l1).trans (hp.trans (o2.perm l2).symm)
  have hn1 : ((o1.enum l1).map Prod.fst).Nodup := (((o1.perm l1).map Prod.fst).nodup_iff).2 hn
  rw [sort_collect_perm _ _ h12 hn1]

/-- Two runs on the same input build the same model, whatever iteration
orders the two `range` loops take in each run. -/
theorem model_deterministic (p1 p2 o1 o2 : MapOrder) (pkg lang : String) (r : Option JSON) :
    ParseARB p1 r = ParseARB p2 r ∧
    buildTranslation o1 pkg lang (ParseARB p1 r).1 =
      buildTranslation o2 pkg lang (ParseARB p2 r).1 := by
  have hP : ParseARB p1 r = ParseARB p2 r := by
    simp only [ParseARB, foldl_dropMeta_enum]
  refine ⟨hP, ?_⟩
  rw [← hP]
  cases htr : (ParseARB p1 r).1 with
  | none => rfl
  | some m =>
    exact buildTranslation_perm m m (List.Perm.refl m) (ParseARB_keys p1 r m htr).1
      o1 o2 pkg lang

theorem decoded_fresh (kvs : List (String × JSON)) (h : (kvs.map Prod.fst).Nodup) :
    decoded kvs = kvs.map fun kv => (kv.1, (decodeElem kv.2).1) := by
  unfold decoded
  rw [foldl_decodeMember_fresh]
  · simp
  · simpa using h

theorem mem_Pairs (o : MapOrder) (pkg lang : String) (m : GoMap) (p : Pair) :
    p ∈ (buildTranslation o pkg lang (some m)).Pairs ↔ (p.Key, p.Value) ∈ m := by
  unfold buildTranslation
  simp only
  rw [(SortFunc_perm _).mem_iff, collectPairs_some, List.mem_map]
  constructor
  · rintro ⟨kv, hkv, rfl⟩
    exact (o.perm m).mem_iff.1 hkv
  · intro h
    exact ⟨(p.Key, p.Value), (o.perm m).mem_iff.2 h, rfl⟩

theorem length_Pairs (o : MapOrder) (pkg lang : String) (m : GoMap) :
    (buildTranslation o pkg lang (some m)).Pairs.length = m.length := by
  unfold buildTranslation
  simp only
  rw [(SortFunc_perm _).length_eq, collectPairs_some, List.length_map, (o.perm m).length_eq]

/-! ## `Lang` -/

theorem extLoop_dot (t rest acc : List Char) (hdot : '.' ∉ t)
    (hsep : ∀ c ∈ t, IsPathSeparator c = false) :
    extLoop (t ++ '.' :: rest) acc = '.' :: (t.reverse ++ acc) := by
  induction t generalizing acc with
  | nil => simp [extLoop, IsPathSeparator]
  | cons c t ih =>
    have hc : c ≠ '.' := fun e => hdot (by simp [e])
    have hs : IsPathSeparator c = false := hsep c (by simp)
    have hdot2 : '.' ∉ t := fun h => hdot (List.mem_cons_of_mem c h)
    have hsep2 : ∀ d ∈ t, IsPathSeparator d = false := fun d hd =>
      hsep d (List.mem_cons_of_mem c hd)
    simp [extLoop, hs, hc, ih (c :: acc) hdot2 hsep2]

theorem Ext_append (S : String) (tail : List Char) (hdot : '.' ∉ tail)
    (hsep : ∀ c ∈ tail, IsPathSeparator c = false) :
    Ext (S ++ String.mk ('.' :: tail)) = String.mk ('.' :: tail) := by
  unfold Ext
  have hd : (S ++ String.mk ('.' :: tail)).data = S.data ++ '.' :: tail := rfl
  rw [hd, List.reverse_append, List.reverse_cons, List.append_assoc, List.singleton_append,
    extLoop_dot _ _ _ (by simpa using hdot) (by simpa using hsep)]
  simp

theorem TrimSuffix_append (S ext : String) : TrimSuffix (S ++ ext) ext = S := by
  unfold TrimSuffix HasSuffix
  have hd : (S ++ ext).data = S.data ++ ext.data := rfl
  rw [hd]
  have hs : ext.data.isSuffixOf (S.data ++ ext.data) = true := by
    rw [List.isSuffixOf_iff_suffix]
    exact List.suffix_append _ _
  simp [hs]

/-! ## `Generate` and the loop of `main` -/

theorem find_filter_ne (fs : FS) (p q : String) (h : q ≠ p) :
    (fs.filter fun f => f.1 ≠ p).find? (fun f => f.1 = q) = fs.find? (fun f => f.1 = q) := by
  rw [List.find?_filter]
  congr 1
  funext a
  by_cases hq : a.1 = q
  · simp [hq, h]
  · simp [hq]

/-- Writing a file changes what is read at its name and nowhere else. -/
theorem read_put (fs : FS) (p d q : String) :
    (fs.put p d).read q = if q = p then some d else fs.read q := by
  unfold FS.read FS.put
  by_cases h : q = p
  · simp [h]
  · have h2 : ¬ p = q := fun e => h e.symm
    rw [List.find?_cons]
    simp only [h2, decide_False, if_neg h, find_filter_ne fs p q h]

theorem Generate_pkg_error (env : Env) (fs : FS) (fname pkg : String) (err : GoError)
    (hP : Pkg env fs "." = (pkg, some err)) : Generate env fs fname = (fs, Result.error err) := by
  simp only [Generate, hP]

theorem Generate_lang_error (env : Env) (fs : FS) (fname pkg lang : String) (err : GoError)
    (hP : Pkg env fs "." = (pkg, none)) (hL : Lang env.tables fname = (lang, some err)) :
    Generate env fs fname = (fs, Result.error err) := by
  simp only [Generate, hP, hL]

theorem Generate_open_error (env : Env) (fs : FS) (fname pkg lang : String) (err : GoError)
    (hP : Pkg env fs "." = (pkg, none)) (hL : Lang env.tables fname = (lang, none))
    (hO : Open fs fname = Except.error err) :
    Generate env fs fname = (fs, Result.error err) := by
  simp only [Generate, hP, hL, hO]

theorem Generate_parse_error (env : Env) (fs : FS) (fname pkg lang fd : String)
    (tr : Option GoMap) (err : GoError)
    (hP : Pkg env fs "." = (pkg, none)) (hL : Lang env.tables fname = (lang, none))
    (hO : Open fs fname = Except.ok fd)
    (hA : ParseARB env.rangeParse (env.scan fd) = (tr, some err)) :
    Generate env fs fname = (fs, Result.error err) := by
  simp only [Generate, hP, hL, hO, hA]

theorem Generate_template_panic (env : Env) (fs : FS) (fname pkg lang fd : String)
    (tr : Option GoMap)
    (hP : Pkg env fs "." = (pkg, none)) (hL : Lang env.tables fname = (lang, none))
    (hO : Open fs fname = Except.ok fd)
    (hA : ParseARB env.rangeParse (env.scan fd) = (tr, none))
    (hT : env.codeTmpl = none) :
    Generate env fs fname = (fs, Result.panicked) := by
  simp only [Generate, hP, hL, hO, hA, hT]

theorem Generate_execute_error (env : Env) (fs : FS) (fname pkg lang fd : String)
    (tr : Option GoMap) (execute : Translation → Except GoError String) (err : GoError)
    (hP : Pkg env fs "." = (pkg, none)) (hL : Lang env.tables fname = (lang, none))
    (hO : Open fs fname = Except.ok fd)
    (hA : ParseARB env.rangeParse (env.scan fd) = (tr, none))
    (hT : env.codeTmpl = some execute)
    (hE : execute (buildTranslation env.rangeGenerate pkg lang tr) = Except.error err) :
    Generate env fs fname = (fs, Result.error err) := by
  simp only [Generate, hP, hL, hO, hA, hT, hE]

theorem Generate_format_error (env : Env) (fs : FS) (fname pkg lang fd buf : String)
    (tr : Option GoMap) (execute : Translation → Except GoError String) (err : GoError)
    (hP : Pkg env fs "." = (pkg, none)) (hL : Lang env.tables fname = (lang, none))
    (hO : Open fs fname = Except.ok fd)
    (hA : ParseARB env.rangeParse (env.scan fd) = (tr, none))
    (hT : env.codeTmpl = some execute)
    (hE : execute (buildTranslation env.rangeGenerate pkg lang tr) = Except.ok buf)
    (hF : env.formatSource buf = Except.error err) :
    Generate env fs fname = (fs, Result.error err) := by
  simp only [Generate, hP, hL, hO, hA, hT, hE, hF]

/-- When every stage before the write succeeds, `Generate` ends as the call
of `os.WriteFile` at the output path does. -/
theorem Generate_write (env : Env) (fs : FS) (fname pkg lang fd buf f : String)
    (tr : Option GoMap) (execute : Translation → Except GoError String)
    (hP : Pkg env fs "." = (pkg, none)) (hL : Lang env.tables fname = (lang, none))
    (hO : Open fs fname = Except.ok fd)
    (hA : ParseARB env.rangeParse (env.scan fd) = (tr, none))
    (hT : env.codeTmpl = some execute)
    (hE : execute (buildTranslation env.rangeGenerate pkg lang tr) = Except.ok buf)
    (hF : env.formatSource buf = Except.ok f) :
    Generate env fs fname =
      match env.writeOutcome fs (lang ++ "_i18n.go") f with
      | WriteOutcome.written => (fs.put (lang ++ "_i18n.go") f, Result.ok)
      | WriteOutcome.refused err => (fs, Result.error err)
      | WriteOutcome.interrupted partialData err =>
        (fs.put (lang ++ "_i18n.go") partialData, Result.error err) := by
  simp only [Generate, hP, hL, hO, hA, hT, hE, hF, WriteFile]
  cases env.writeOutcome fs (lang ++ "_i18n.go") f <;> rfl

/-- What a call of `Generate` can do to the file system: leave it untouched
(always so when it fails before the write and when the write is refused), put
the generated source at the output path and succeed, or fail in an
interrupted write that leaves partial data at the output path. -/
theorem Generate_cases (env : Env) (fs : FS) (fname : String) :
    ((Generate env fs fname).1 = fs ∧ (Generate env fs fname).2 ≠ Result.ok) ∨
    (∃ f, env.writeOutcome fs ((Lang env.tables fname).1 ++ "_i18n.go") f = WriteOutcome.written ∧
      Generate env fs fname = (fs.put ((Lang env.tables fname).1 ++ "_i18n.go") f, Result.ok)) ∨
    (∃ f d err, env.writeOutcome fs ((Lang env.tables fname).1 ++ "_i18n.go") f =
        WriteOutcome.interrupted d err ∧
      Generate env fs fname =
        (fs.put ((Lang env.tables fname).1 ++ "_i18n.go") d, Result.error err)) := by
  rcases hP : Pkg env fs "." with ⟨pkg, _ | e⟩
  swap; · rw [Generate_pkg_error env fs fname pkg e hP]; exact Or.inl ⟨rfl, by simp⟩
  rcases hL : Lang env.tables fname with ⟨lang, _ | e⟩
  swap; · rw [Generate_lang_error env fs fname pkg lang e hP hL]; exact Or.inl ⟨rfl, by simp⟩
  cases hO : Open fs fname with
  | error e => rw [Generate_open_error env fs fname pkg lang e hP hL hO]; exact Or.inl ⟨rfl, by simp⟩
  | ok fd =>
    rcases hA : ParseARB env.rangeParse (env.scan fd) with ⟨tr, _ | e⟩
    swap
    · rw [Generate_parse_error env fs fname pkg lang fd tr e hP hL hO hA]
      exact Or.inl ⟨rfl, by simp⟩
    cases hT : env.codeTmpl with
    | none =>
      rw [Generate_template_panic env fs fname pkg lang fd tr hP hL hO hA hT]
      exact Or.inl ⟨rfl, by simp⟩
    | some execute =>
      cases hE : execute (buildTranslation env.rangeGenerate pkg lang tr) with
      | error e =>
        rw [Generate_execute_error env fs fname pkg lang fd tr execute e hP hL hO hA hT hE]
        exact Or.inl ⟨rfl, by simp⟩
      | ok buf =>
        cases hF : env.formatSource buf with
        | error e =>
          rw [Generate_format_error env fs fname pkg lang fd buf tr execute e hP hL hO hA hT hE hF]
          exact Or.inl ⟨rfl, by simp⟩
        | ok f =>
          rw [Generate_write env fs fname pkg lang fd buf f tr execute hP hL hO hA hT hE hF]
          cases hW : env.writeOutcome fs (lang ++ "_i18n.go") f with
          | written => exact Or.inr (Or.inl ⟨f, hW, rfl⟩)
          | refused e => exact Or.inl ⟨rfl, by simp⟩
          | interrupted d e => exact Or.inr (Or.inr ⟨f, d, e, hW, rfl⟩)

theorem generateAll_cases (env : Env) (fs : FS) (files : List String) :
    (∃ fsEnd, generatedAll env fs files = some fsEnd ∧
      generateAll env fs files = (fsEnd, 0)) ∨
    (∃ pre f post fsMid, files = pre ++ f :: post ∧
      generatedAll env fs pre = some fsMid ∧
      (Generate env fsMid f).2 ≠ Result.ok ∧
      generateAll env fs files =
        ((Generate env fsMid f).1, if (Generate env fsMid f).2 = Result.panicked then 2 else 1)) := by
  induction files generalizing fs with
  | nil => exact Or.inl ⟨fs, rfl, rfl⟩
  | cons f files ih =>
    rcases hG : Generate env fs f with ⟨fs1, res⟩
    cases res with
    | ok =>
      rcases ih fs1 with ⟨fsEnd, h1, h2⟩ | ⟨pre, g, post, fsMid, h1, h2, h3, h4⟩
      · left
        exact ⟨fsEnd, by simp only [generatedAll, hG, h1], by simp only [generateAll, hG, h2]⟩
      · right
        refine ⟨f :: pre, g, post, fsMid, by simp [h1], ?_, h3, ?_⟩
        · simp only [generatedAll, hG, h2]
        · simp only [generateAll, hG, h4]
    | error err =>
      right
      refine ⟨[], f, files, fs, rfl, rfl, by simp [hG], ?_⟩
      simp [generateAll, hG]
    | panicked =>
      right
      refine ⟨[], f, files, fs, rfl, rfl, by simp [hG], ?_⟩
      simp [generateAll, hG]

/-- Once a file fails, the files after it play no part in the run. -/
theorem generateAll_abort (env : Env) (pre : List String) (f : String) (post : List String)
    (fs fsMid : FS) (h1 : generatedAll env fs pre = some fsMid)
    (h2 : (Generate env fsMid f).2 ≠ Result.ok) :
    generateAll env fs (pre ++ f :: post) =
      ((Generate env fsMid f).1, if (Generate env fsMid f).2 = Result.panicked then 2 else 1) := by
  induction pre generalizing fs with
  | nil =>
    have hfs : fs = fsMid := Option.some.inj h1
    subst hfs
    rcases hG : Generate env fs f with ⟨fs1, res⟩
    rw [hG] at h2
    cases res with
    | ok => exact absurd rfl h2
    | error err => simp [generateAll, hG]
    | panicked => simp [generateAll, hG]
  | cons g pre ih =>
    rcases hG : Generate env fs g with ⟨fs1, res⟩
    cases res with
    | ok =>
      simp only [generatedAll, hG] at h1
      simp only [List.cons_append, generateAll, hG]
      exact ih fs1 h1
    | error err => simp [generatedAll, hG] at h1
    | panicked => simp [generatedAll, hG] at h1

/-! # The properties -/

/-- C1: for every resource mapping `M` with string values (keys distinct),
`ParseARB` applied to the serialized `M` succeeds and returns exactly the
entries of `M` whose key does not start with "@": each such entry of `M` is
present with its value, and nothing else is. -/
theorem ParseARB_roundtrip (o : MapOrder) (M : GoMap) (h : (M.map Prod.fst).Nodup) :
    ParseARB o (some (serialize M)) = (some (M.filter fun kv => !HasPrefix kv.1 "@"), none) ∧
    ∀ k v, (k, v) ∈ (M.filter fun kv => !HasPrefix kv.1 "@") ↔
      (k, v) ∈ M ∧ HasPrefix k "@" = false := by
  constructor
  · unfold serialize
    rw [ParseARB_object_ok, decoded_serialize M h]
    intro kv hkv
    obtain ⟨x, _, rfl⟩ := List.mem_map.1 hkv
    rfl
  · intro k v
    simp [List.mem_filter]

theorem ParseARB_roundtrip_witness :
    ([("hello", "Bonjour"), ("@@locale", "fr"), ("bye", "Au revoir")].map Prod.fst).Nodup ∧
    ParseARB MapOrder.reversed
        (some (serialize [("hello", "Bonjour"), ("@@locale", "fr"), ("bye", "Au revoir")])) =
      (some [("hello", "Bonjour"), ("bye", "Au revoir")], none) :=
  ⟨by decide,
    (ParseARB_roundtrip MapOrder.reversed
      [("hello", "Bonjour"), ("@@locale", "fr"), ("bye", "Au revoir")] (by decide)).1⟩

/-- C2, as stated, fails: in the scenario input every value outside the
metadata key is a string, yet `ParseARB` returns an `UnmarshalTypeError` for
the object under "@hello" and no mapping. -/
theorem ParseARB_scenario_rejected :
    (scenarioMembers.filter fun kv => !HasPrefix kv.1 "@").map (fun kv => kv.2.kind) =
      ["string", "string"] ∧
    ParseARB MapOrder.stored (some (JSON.object scenarioMembers)) =
      (none, some (GoError.unmarshalType "object")) := by
  decide

/-- C2, amended: `ParseARB` succeeds on a mapping exactly when every value,
those under keys starting with "@" included, is a string or `null`; metadata
values are validated like all others, and the metadata entries are dropped
only after the whole mapping has decoded. -/
theorem ParseARB_succeeds_iff (o : MapOrder) (kvs : List (String × JSON)) :
    ((ParseARB o (some (JSON.object kvs))).2 = none ↔
      ∀ kv ∈ kvs, kv.2.isStringOrNull = true) ∧
    ((∀ kv ∈ kvs, kv.2.isStringOrNull = true) →
      ParseARB o (some (JSON.object kvs)) =
        (some ((decoded kvs).filter fun kv => !HasPrefix kv.1 "@"), none)) ∧
    (∀ k v, (k, v) ∈ kvs → HasPrefix k "@" = true → v.isStringOrNull = false →
      ∃ err, ParseARB o (some (JSON.object kvs)) = (none, some err)) := by
  refine ⟨⟨fun h => ?_, fun h => ?_⟩, ParseARB_object_ok o kvs, fun k v hmem _ hv => ?_⟩
  · by_contra hall
    obtain ⟨err, he⟩ := ParseARB_object_error o kvs hall
    rw [he] at h
    exact absurd h (by simp)
  · rw [ParseARB_object_ok o kvs h]
  · apply ParseARB_object_error
    intro hall
    have := hall (k, v) hmem
    simp [hv] at this

theorem ParseARB_succeeds_iff_witness :
    ParseARB MapOrder.stored
        (some (JSON.object [("hello", JSON.string "Bonjour"), ("@hello", JSON.string "greeting"),
          ("bye", JSON.string "Au revoir")])) =
      (some [("hello", "Bonjour"), ("bye", "Au revoir")], none) :=
  (ParseARB_succeeds_iff MapOrder.stored
    [("hello", JSON.string "Bonjour"), ("@hello", JSON.string "greeting"),
      ("bye", JSON.string "Au revoir")]).2.1 (by decide)

/-- C7, as stated, fails: a `null` value is not a string, yet `ParseARB`
succeeds and stores the empty string under its key. -/
theorem ParseARB_null_accepted :
    JSON.kind JSON.null = "null" ∧
    ParseARB MapOrder.stored (some (JSON.object [("a", JSON.null)])) =
      (some [("a", "")], none) := by
  decide

/-- C7, amended: `ParseARB` fails if the reader holds no well-formed JSON
value, if the value is neither an object nor `null`, or if any member value
is neither a string nor `null`; a mapping whose values are strings or `null`
is accepted; and on every failure the result is the `nil` map together with
the error. -/
theorem ParseARB_failure (o : MapOrder) :
    ParseARB o none = (none, some GoError.jsonMalformed) ∧
    (∀ v, v.kind ≠ "object" → v.kind ≠ "null" →
      ParseARB o (some v) = (none, some (GoError.unmarshalType v.kind))) ∧
    (∀ kvs : List (String × JSON), (∃ kv ∈ kvs, kv.2.isStringOrNull = false) →
      ∃ err, ParseARB o (some (JSON.object kvs)) = (none, some err)) ∧
    (∀ kvs : List (String × JSON), (∀ kv ∈ kvs, kv.2.isStringOrNull = true) →
      (ParseARB o (some (JSON.object kvs))).2 = none) ∧
    (∀ r, (ParseARB o r).2 ≠ none → (ParseARB o r).1 = none) := by
  refine ⟨rfl, ?_, ?_, ?_, fun r => ParseARB_error_nil o r⟩
  · intro v h1 h2
    cases v <;> first | rfl | exact absurd rfl h1 | exact absurd rfl h2
  · rintro kvs ⟨kv, hmem, hbad⟩
    apply ParseARB_object_error
    intro hall
    have := hall kv hmem
    simp [hbad] at this
  · intro kvs hall
    rw [ParseARB_object_ok o kvs hall]

theorem ParseARB_failure_witness :
    ∃ err, ParseARB MapOrder.stored
      (some (JSON.object [("a", JSON.string "x"), ("n", JSON.number "1")])) = (none, some err) :=
  (ParseARB_failure MapOrder.stored).2.2.1 _ ⟨("n", JSON.number "1"), by simp, rfl⟩

/-- C3: in every model built from a mapping returned by `ParseARB`, `Pairs`
is strictly ascending by `Key` under byte-wise lexicographic comparison: for
positions `i < j` the Go comparison `Pairs[i].Key < Pairs[j].Key` holds (it
agrees with the order of `String`), so keys are unique. -/
theorem Pairs_strictly_ascending (p o : MapOrder) (pkg lang : String) (r : Option JSON)
    (tr : Option GoMap) (h : ParseARB p r = (tr, none)) :
    (∀ (i j : Nat) (hi : i < (buildTranslation o pkg lang tr).Pairs.length)
        (hj : j < (buildTranslation o pkg lang tr).Pairs.length), i < j →
      stringLess (buildTranslation o pkg lang tr).Pairs[i].Key
        (buildTranslation o pkg lang tr).Pairs[j].Key = true) ∧
    (buildTranslation o pkg lang tr).Pairs.Pairwise (fun a b => a.Key < b.Key) ∧
    ((buildTranslation o pkg lang tr).Pairs.map Pair.Key).Nodup := by
  have hn : ((collectPairs o tr).map Pair.Key).Nodup := by
    apply collectPairs_keys_nodup
    intro m hm
    exact (ParseARB_keys p r m (by rw [h, hm])).1
  have hs := SortFunc_strict (collectPairs o tr) hn
  refine ⟨?_, hs, ?_⟩
  · intro i j hi hj hij
    exact (stringLess_iff _ _).2 (List.pairwise_iff_getElem.1 hs i j hi hj hij)
  · exact (((SortFunc_perm (collectPairs o tr)).map Pair.Key).nodup_iff).2 hn

theorem Pairs_strictly_ascending_witness :
    ParseARB MapOrder.stored
        (some (JSON.object [("hello", JSON.string "Bonjour"), ("@@locale", JSON.string "fr"),
          ("bye", JSON.string "Au revoir")])) =
      (some [("hello", "Bonjour"), ("bye", "Au revoir")], none) ∧
    (buildTranslation MapOrder.stored "app" "fr"
        (some [("hello", "Bonjour"), ("bye", "Au revoir")])).Pairs.Pairwise
      (fun a b => a.Key < b.Key) :=
  ⟨by decide,
    (Pairs_strictly_ascending MapOrder.stored MapOrder.stored "app" "fr"
      (some (JSON.object [("hello", JSON.string "Bonjour"), ("@@locale", JSON.string "fr"),
        ("bye", JSON.string "Au revoir")]))
      (some [("hello", "Bonjour"), ("bye", "Au revoir")]) (by decide)).2.1⟩

/-- C4: the `Pairs` built by `Generate` depend only on the mapping: for two
enumerations `l1`, `l2` of the same key-unique mapping (permutations of each
other), collecting the entries and sorting them by `Key` gives the identical
sequence, whatever iteration order `range` takes, so the model is the same. -/
theorem Pairs_order_independent (l1 l2 : GoMap) (hp : l1.Perm l2)
    (hn : (l1.map Prod.fst).Nodup) (o1 o2 : MapOrder) (pkg lang : String) :
    SortFunc cmpPairs (l1.map fun kv => Pair.mk kv.1 kv.2) =
      SortFunc cmpPairs (l2.map fun kv => Pair.mk kv.1 kv.2) ∧
    buildTranslation o1 pkg lang (some l1) = buildTranslation o2 pkg lang (some l2) :=
  ⟨sort_collect_perm l1 l2 hp hn, buildTranslation_perm l1 l2 hp hn o1 o2 pkg lang⟩

theorem Pairs_order_independent_witness :
    buildTranslation MapOrder.stored "app" "fr" (some [("hello", "Bonjour"), ("bye", "Au revoir")]) =
      buildTranslation MapOrder.reversed "app" "fr"
        (some [("bye", "Au revoir"), ("hello", "Bonjour")]) :=
  (Pairs_order_independent [("hello", "Bonjour"), ("bye", "Au revoir")]
    [("bye", "Au revoir"), ("hello", "Bonjour")] (List.Perm.swap _ _ _) (by decide)
    MapOrder.stored MapOrder.reversed "app" "fr").2

/-- C5: for every input mapping (keys distinct) that parses, the `Pairs` of
the model are exactly the non-metadata entries of the input, each once: no
`Key` begins with "@"; every non-metadata entry appears as a `Pair` (a string
with its value, a `null` as the empty string) and every `Pair` is such an
entry; there are as many `Pairs` as non-metadata keys, with distinct keys; a
mapping of metadata keys only (or an empty one) gives zero `Pairs`. -/
theorem Pairs_exactly_non_metadata (p o : MapOrder) (pkg lang : String)
    (kvs : List (String × JSON)) (hn : (kvs.map Prod.fst).Nodup)
    (hok : (ParseARB p (some (JSON.object kvs))).2 = none) :
    (∀ q ∈ (buildTranslation o pkg lang (ParseARB p (some (JSON.object kvs))).1).Pairs,
      HasPrefix q.Key "@" = false) ∧
    (∀ k s, (k, JSON.string s) ∈ kvs → HasPrefix k "@" = false →
      Pair.mk k s ∈ (buildTranslation o pkg lang (ParseARB p (some (JSON.object kvs))).1).Pairs) ∧
    (∀ k, (k, JSON.null) ∈ kvs → HasPrefix k "@" = false →
      Pair.mk k "" ∈ (buildTranslation o pkg lang (ParseARB p (some (JSON.object kvs))).1).Pairs) ∧
    (∀ q ∈ (buildTranslation o pkg lang (ParseARB p (some (JSON.object kvs))).1).Pairs,
      (q.Key, JSON.string q.Value) ∈ kvs ∨ ((q.Key, JSON.null) ∈ kvs ∧ q.Value = "")) ∧
    (buildTranslation o pkg lang (ParseARB p (some (JSON.object kvs))).1).Pairs.length =
      (kvs.filter fun kv => !HasPrefix kv.1 "@").length ∧
    ((buildTranslation o pkg lang (ParseARB p (some (JSON.object kvs))).1).Pairs.map
      Pair.Key).Nodup ∧
    ((∀ kv ∈ kvs, HasPrefix kv.1 "@" = true) →
      (buildTranslation o pkg lang (ParseARB p (some (JSON.object kvs))).1).Pairs = []) := by
  have hall : ∀ kv ∈ kvs, kv.2.isStringOrNull = true := by
    by_contra hall
    obtain ⟨err, he⟩ := ParseARB_object_error p kvs hall
    rw [he] at hok
    exact absurd hok (by simp)
  have hP := ParseARB_object_ok p kvs hall
  rw [decoded_fresh kvs hn] at hP
  rw [hP]
  simp only
  have hmem : ∀ q : Pair, q ∈ (buildTranslation o pkg lang (some (List.filter
      (fun kv => !HasPrefix kv.1 "@")
      (kvs.map fun kv => (kv.1, (decodeElem kv.2).1))))).Pairs ↔
      HasPrefix q.Key "@" = false ∧ ∃ v, (q.Key, v) ∈ kvs ∧ (decodeElem v).1 = q.Value := by
    intro q
    rw [mem_Pairs, List.mem_filter, List.mem_map]
    constructor
    · rintro ⟨⟨kv, hkv, heq⟩, hpre⟩
      have h1 : kv.1 = q.Key := congrArg Prod.fst heq
      have h2 : (decodeElem kv.2).1 = q.Value := congrArg Prod.snd heq
      refine ⟨by simpa using hpre, kv.2, ?_, h2⟩
      rw [← h1]
      exact hkv
    · rintro ⟨hpre, v, hv, hval⟩
      exact ⟨⟨(q.Key, v), hv, by simp [hval]⟩, by simp [hpre]⟩
  refine ⟨fun q hq => ((hmem q).1 hq).1, ?_, ?_, ?_, ?_, ?_, ?_⟩
  · intro k s hks hpre
    exact (hmem (Pair.mk k s)).2 ⟨hpre, JSON.string s, hks, rfl⟩
  · intro k hk hpre
    exact (hmem (Pair.mk k "")).2 ⟨hpre, JSON.null, hk, rfl⟩
  · intro q hq
    obtain ⟨_, v, hv, hval⟩ := (hmem q).1 hq
    have hsn := hall (q.Key, v) hv
    cases v with
    | string s =>
      left
      have : s = q.Value := hval
      rw [← this]
      exact hv
    | null => exact Or.inr ⟨hv, hval.symm⟩
    | bool b => simp [JSON.isStringOrNull] at hsn
    | number n => simp [JSON.isStringOrNull] at hsn
    | array xs => simp [JSON.isStringOrNull] at hsn
    | object ms => simp [JSON.isStringOrNull] at hsn
  · rw [length_Pairs, List.filter_map, List.length_map]
    rfl
  · have hk : ((List.filter (fun kv => !HasPrefix kv.1 "@")
        (kvs.map fun kv => (kv.1, (decodeElem kv.2).1))).map Prod.fst).Nodup := by
      apply filter_keys_nodup
      simpa [List.map_map, Function.comp_def] using hn
    unfold buildTranslation
    simp only
    exact ((((SortFunc_perm _).map Pair.Key).trans (collectPairs_keys o _)).nodup_iff).2 hk
  · intro hmeta
    apply List.eq_nil_of_length_eq_zero
    rw [length_Pairs, List.length_eq_zero, List.filter_eq_nil_iff]
    intro kv hkv
    obtain ⟨x, hx, rfl⟩ := List.mem_map.1 hkv
    simp [hmeta x hx]

theorem Pairs_exactly_non_metadata_witness :
    ([("hello", JSON.string "Bonjour"), ("@@locale", JSON.string "fr"),
      ("bye", JSON.null)].map Prod.fst).Nodup ∧
    (ParseARB MapOrder.stored (some (JSON.object [("hello", JSON.string "Bonjour"),
      ("@@locale", JSON.string "fr"), ("bye", JSON.null)]))).2 = none ∧
    (buildTranslation MapOrder.reversed "app" "fr"
      (ParseARB MapOrder.stored (some (JSON.object [("hello", JSON.string "Bonjour"),
        ("@@locale", JSON.string "fr"), ("bye", JSON.null)]))).1).Pairs.length = 2 :=
  ⟨by decide, by decide,
    (Pairs_exactly_non_metadata MapOrder.stored MapOrder.reversed "app" "fr"
      [("hello", JSON.string "Bonjour"), ("@@locale", JSON.string "fr"), ("bye", JSON.null)]
      (by decide) (by decide)).2.2.2.2.1⟩

/-- An empty mapping parses without error and yields a model without `Pairs`. -/
theorem empty_mapping_model (p o : MapOrder) (pkg lang : String) :
    ParseARB p (some (JSON.object [])) = (some [], none) ∧
    (buildTranslation o pkg lang (ParseARB p (some (JSON.object []))).1).Pairs = [] := by
  have h : ParseARB p (some (JSON.object [])) = (some [], none) := by
    rw [ParseARB_object_ok p [] (by simp)]
    rfl
  refine ⟨h, ?_⟩
  rw [h]
  apply List.eq_nil_of_length_eq_zero
  rw [length_Pairs]
  rfl

/-- C6: for every string `S` and extension (a dot followed by characters
that are neither a dot nor a path separator), `Lang (S ++ ext)` validates
exactly `S`: it returns `S` unchanged and no error when `language.Parse`
accepts `S`, and the empty string with the error when it rejects `S`; the
empty `S` is always rejected. -/
theorem Lang_validates_stem (tables : String → Option GoError) (S : String) (tail : List Char)
    (hdot : '.' ∉ tail) (hsep : ∀ c ∈ tail, IsPathSeparator c = false) :
    (languageParse tables S = none → Lang tables (S ++ String.mk ('.' :: tail)) = (S, none)) ∧
    (∀ err, languageParse tables S = some err →
      Lang tables (S ++ String.mk ('.' :: tail)) = ("", some err)) ∧
    Lang tables ("" ++ String.mk ('.' :: tail)) = ("", some GoError.langEmpty) := by
  have hname : ∀ T : String, TrimSuffix (T ++ String.mk ('.' :: tail))
      (Ext (T ++ String.mk ('.' :: tail))) = T := by
    intro T
    rw [Ext_append T tail hdot hsep, TrimSuffix_append]
  refine ⟨fun h => ?_, fun err h => ?_, ?_⟩
  · simp only [Lang, hname, h]
  · simp only [Lang, hname, h]
  · simp only [Lang, hname]
    rfl

theorem Lang_validates_stem_witness :
    '.' ∉ ['a', 'r', 'b'] ∧ (∀ c ∈ ['a', 'r', 'b'], IsPathSeparator c = false) ∧
    Lang (fun s => if s = "fr" then none else some (GoError.langInvalid s)) "fr.arb" =
      ("fr", none) ∧
    Lang (fun s => if s = "fr" then none else some (GoError.langInvalid s)) "not-a-locale.arb" =
      ("", some (GoError.langInvalid "not-a-locale")) :=
  ⟨by decide, by decide,
    (Lang_validates_stem (fun s => if s = "fr" then none else some (GoError.langInvalid s))
      "fr" ['a', 'r', 'b'] (by decide) (by decide)).1 (by decide),
    (Lang_validates_stem (fun s => if s = "fr" then none else some (GoError.langInvalid s))
      "not-a-locale" ['a', 'r', 'b'] (by decide) (by decide)).2.1 _ (by decide)⟩

/-- C8, as stated, fails: the input with the single entry "" parses without
error and the model built from it holds a `Pair` whose `Key` is the empty
string. -/
theorem empty_key_in_model :
    ParseARB MapOrder.stored (some (JSON.object [("", JSON.string "x")])) =
      (some [("", "x")], none) ∧
    (buildTranslation MapOrder.stored "app" "fr"
      (ParseARB MapOrder.stored (some (JSON.object [("", JSON.string "x")]))).1).Pairs =
      [Pair.mk "" "x"] := by
  decide

/-- C8, amended: every `Key` in a model built from a parsed input is a key
of the input mapping and does not begin with "@"; so the keys of the model
are non-empty whenever the input mapping has no empty key.  The program never
checks a key for emptiness: whenever the input mapping has the key "" and
parses, the model holds a `Pair` whose `Key` is "". -/
theorem Pairs_keys_from_input (p o : MapOrder) (pkg lang : String) (r : Option JSON)
    (tr : Option GoMap) (h : ParseARB p r = (tr, none)) :
    (∀ q ∈ (buildTranslation o pkg lang tr).Pairs,
      HasPrefix q.Key "@" = false ∧
      ∃ kvs, r = some (JSON.object kvs) ∧ q.Key ∈ kvs.map Prod.fst) ∧
    ((∀ kvs, r = some (JSON.object kvs) → ∀ kv ∈ kvs, kv.1 ≠ "") →
      ∀ q ∈ (buildTranslation o pkg lang tr).Pairs, q.Key ≠ "") ∧
    (∀ kvs, r = some (JSON.object kvs) → "" ∈ kvs.map Prod.fst →
      ∃ q ∈ (buildTranslation o pkg lang tr).Pairs, q.Key = "") := by
  have h1 : ∀ q ∈ (buildTranslation o pkg lang tr).Pairs,
      HasPrefix q.Key "@" = false ∧
      ∃ kvs, r = some (JSON.object kvs) ∧ q.Key ∈ kvs.map Prod.fst := by
    intro q hq
    cases tr with
    | none => simp [buildTranslation, collectPairs, SortFunc] at hq
    | some m =>
      obtain ⟨kvs, hr, _, hm⟩ := ParseARB_some p r m (by rw [h])
      rw [mem_Pairs] at hq
      refine ⟨(ParseARB_keys p r m (by rw [h])).2 _ hq, kvs, hr, ?_⟩
      rw [hm] at hq
      have hk : q.Key ∈ (decoded kvs).map Prod.fst :=
        List.mem_map_of_mem Prod.fst (List.mem_filter.1 hq).1
      simpa using (foldl_decodeMember_keys kvs ([], none) q.Key).1 hk
  refine ⟨h1, fun hne q hq => ?_, fun kvs hr hkey => ?_⟩
  · obtain ⟨_, kvs, hr, hk⟩ := h1 q hq
    obtain ⟨kv, hkv, hkey⟩ := List.mem_map.1 hk
    rw [← hkey]
    exact hne kvs hr kv hkv
  · subst hr
    have hall : ∀ kv ∈ kvs, kv.2.isStringOrNull = true := by
      by_contra hall
      obtain ⟨err, he⟩ := ParseARB_object_error p kvs hall
      rw [he] at h
      exact absurd (congrArg Prod.snd h) (by simp)
    rw [ParseARB_object_ok p kvs hall] at h
    have htr : tr = some ((decoded kvs).filter fun kv => !HasPrefix kv.1 "@") :=
      (congrArg Prod.fst h).symm
    subst htr
    have hk : "" ∈ (decoded kvs).map Prod.fst :=
      (foldl_decodeMember_keys kvs ([], none) "").2 (Or.inr hkey)
    obtain ⟨kv, hkv, hfst⟩ := List.mem_map.1 hk
    refine ⟨Pair.mk kv.1 kv.2, ?_, hfst⟩
    rw [mem_Pairs, List.mem_filter]
    refine ⟨hkv, ?_⟩
    rw [hfst]
    decide

theorem Pairs_keys_from_input_witness :
    ParseARB MapOrder.stored
        (some (JSON.object [("hello", JSON.string "Bonjour"), ("@@locale", JSON.string "fr"),
          ("bye", JSON.string "Au revoir")])) =
      (some [("hello", "Bonjour"), ("bye", "Au revoir")], none) ∧
    ∀ q ∈ (buildTranslation MapOrder.stored "app" "fr"
        (some [("hello", "Bonjour"), ("bye", "Au revoir")])).Pairs, q.Key ≠ "" :=
  ⟨by decide,
    (Pairs_keys_from_input MapOrder.stored MapOrder.stored "app" "fr"
      (some (JSON.object [("hello", JSON.string "Bonjour"), ("@@locale", JSON.string "fr"),
        ("bye", JSON.string "Au revoir")]))
      (some [("hello", "Bonjour"), ("bye", "Au revoir")]) (by decide)).2.1
      (by
        intro kvs hr kv hkv
        cases hr
        simp only [List.mem_cons, List.mem_singleton, List.not_mem_nil, or_false] at hkv
        rcases hkv with rfl | rfl | rfl <;> decide)⟩

/-- C9: `Generate` writes at most one file, and only at the path
`Lang(fname) + "_i18n.go"`: the file system afterwards is the one before or
differs from it at that path alone; and when a stage before the write fails
(package resolution, language tag, opening, parsing, template execution,
formatting) `Generate` returns that error and the file system is unchanged. -/
theorem Generate_writes_only_output (env : Env) (fs : FS) (fname : String) :
    ((Generate env fs fname).1 = fs ∨
      ∃ data, (Generate env fs fname).1 =
        fs.put ((Lang env.tables fname).1 ++ "_i18n.go") data) ∧
    (∀ name, name ≠ (Lang env.tables fname).1 ++ "_i18n.go" →
      (Generate env fs fname).1.read name = fs.read name) ∧
    (∀ pkg err, Pkg env fs "." = (pkg, some err) →
      Generate env fs fname = (fs, Result.error err)) ∧
    (∀ pkg lang err, Pkg env fs "." = (pkg, none) → Lang env.tables fname = (lang, some err) →
      Generate env fs fname = (fs, Result.error err)) ∧
    (∀ pkg lang err, Pkg env fs "." = (pkg, none) → Lang env.tables fname = (lang, none) →
      Open fs fname = Except.error err → Generate env fs fname = (fs, Result.error err)) ∧
    (∀ pkg lang fd tr err, Pkg env fs "." = (pkg, none) →
      Lang env.tables fname = (lang, none) → Open fs fname = Except.ok fd →
      ParseARB env.rangeParse (env.scan fd) = (tr, some err) →
      Generate env fs fname = (fs, Result.error err)) ∧
    (∀ pkg lang fd tr execute err, Pkg env fs "." = (pkg, none) →
      Lang env.tables fname = (lang, none) → Open fs fname = Except.ok fd →
      ParseARB env.rangeParse (env.scan fd) = (tr, none) → env.codeTmpl = some execute →
      execute (buildTranslation env.rangeGenerate pkg lang tr) = Except.error err →
      Generate env fs fname = (fs, Result.error err)) ∧
    (∀ pkg lang fd tr execute buf err, Pkg env fs "." = (pkg, none) →
      Lang env.tables fname = (lang, none) → Open fs fname = Except.ok fd →
      ParseARB env.rangeParse (env.scan fd) = (tr, none) → env.codeTmpl = some execute →
      execute (buildTranslation env.rangeGenerate pkg lang tr) = Except.ok buf →
      env.formatSource buf = Except.error err →
      Generate env fs fname = (fs, Result.error err)) := by
  have hfs : (Generate env fs fname).1 = fs ∨
      ∃ data, (Generate env fs fname).1 =
        fs.put ((Lang env.tables fname).1 ++ "_i18n.go") data := by
    rcases Generate_cases env fs fname with h | ⟨f, _, h⟩ | ⟨f, d, err, _, h⟩
    · exact Or.inl h.1
    · exact Or.inr ⟨f, by rw [h]⟩
    · exact Or.inr ⟨d, by rw [h]⟩
  refine ⟨hfs, ?_, ?_, ?_, ?_, ?_, ?_, ?_⟩
  · intro name hne
    rcases hfs with h | ⟨data, h⟩
    · rw [h]
    · rw [h, read_put, if_neg hne]
  · intro pkg err hP
    exact Generate_pkg_error env fs fname pkg err hP
  · intro pkg lang err hP hL
    exact Generate_lang_error env fs fname pkg lang err hP hL
  · intro pkg lang err hP hL hO
    exact Generate_open_error env fs fname pkg lang err hP hL hO
  · intro pkg lang fd tr err hP hL hO hA
    exact Generate_parse_error env fs fname pkg lang fd tr err hP hL hO hA
  · intro pkg lang fd tr execute err hP hL hO hA hT hE
    exact Generate_execute_error env fs fname pkg lang fd tr execute err hP hL hO hA hT hE
  · intro pkg lang fd tr execute buf err hP hL hO hA hT hE hF
    exact Generate_format_error env fs fname pkg lang fd buf tr execute err hP hL hO hA hT hE hF

theorem Generate_writes_only_output_witness :
    Generate (sampleEnv writeAll) [("not-a-locale.arb", sampleText)] "not-a-locale.arb" =
      ([("not-a-locale.arb", sampleText)],
        Result.error (GoError.langInvalid "not-a-locale")) :=
  (Generate_writes_only_output (sampleEnv writeAll) [("not-a-locale.arb", sampleText)]
    "not-a-locale.arb").2.2.2.1 "app" "" (GoError.langInvalid "not-a-locale")
    (by decide) (by decide)

/-- C10, as stated, fails: when the write of the first file is interrupted
the run aborts with status 1, yet the failing file has produced output: its
output path did not exist before and holds a truncated file afterwards. -/
theorem failing_file_leaves_output :
    FS.read [("fr.arb", sampleText)] "fr_i18n.go" = none ∧
    generateAll (sampleEnv writeInterrupted) [("fr.arb", sampleText)] ["fr.arb"] =
      ([("fr_i18n.go", ""), ("fr.arb", sampleText)], 1) := by
  decide

/-- C10, amended: the run processes the files in order and aborts at the
first file whose `Generate` fails: the files before it have been generated,
the files after it are never processed (they have no influence on the
outcome), and the exit status is not zero; the failing file leaves the file
system as it was, except when its failure is an interrupted `os.WriteFile`,
which leaves partial data at its output path.  If no file fails, all are
generated and the status is zero. -/
theorem generateAll_fail_fast (env : Env) (fs : FS) (files : List String) :
    (∃ fsEnd, generatedAll env fs files = some fsEnd ∧
      generateAll env fs files = (fsEnd, 0)) ∨
    (∃ pre f post fsMid fsEnd status, files = pre ++ f :: post ∧
      generatedAll env fs pre = some fsMid ∧
      (Generate env fsMid f).2 ≠ Result.ok ∧
      generateAll env fs files = (fsEnd, status) ∧ status ≠ 0 ∧
      (∀ others, generateAll env fs (pre ++ f :: others) = (fsEnd, status)) ∧
      (fsEnd = fsMid ∨
        ∃ data d err,
          env.writeOutcome fsMid ((Lang env.tables f).1 ++ "_i18n.go") data =
            WriteOutcome.interrupted d err ∧
          fsEnd = fsMid.put ((Lang env.tables f).1 ++ "_i18n.go") d)) := by
  rcases generateAll_cases env fs files with h | ⟨pre, f, post, fsMid, h1, h2, h3, h4⟩
  · exact Or.inl h
  · right
    refine ⟨pre, f, post, fsMid, (Generate env fsMid f).1,
      if (Generate env fsMid f).2 = Result.panicked then 2 else 1, h1, h2, h3, h4, ?_,
      fun others => generateAll_abort env pre f others fs fsMid h2 h3, ?_⟩
    · split <;> decide
    · rcases Generate_cases env fsMid f with h | ⟨data, _, h⟩ | ⟨data, d, err, hw, h⟩
      · exact Or.inl h.1
      · rw [h] at h3
        exact absurd rfl h3
      · exact Or.inr ⟨data, d, err, hw, by rw [h]⟩

/-- A run over three files in the sample environment: the first is generated,
the second has no valid language tag and aborts the run with status 1, the
third is never reached. -/
theorem generateAll_sample :
    generateAll (sampleEnv writeAll)
        [("fr.arb", sampleText), ("not-a-locale.arb", sampleText), ("en.arb", sampleText)]
        ["fr.arb", "not-a-locale.arb", "en.arb"] =
      ([("fr_i18n.go", "app:fr:bye=Au revoir;hello=Bonjour;"), ("fr.arb", sampleText),
        ("not-a-locale.arb", sampleText), ("en.arb", sampleText)], 1) := by
  decide

end Geni18n
